import Mathlib

/-
Verification of the structured logging core (lib/internal/console/optimized.js):
Logger / LogConsumer / JSONConsumer, error serialization with cycle detection,
the buffered console write scheduler, and fastStringify.

Modelling conventions:
- JS values are shallowly embedded as the inductive `JVal`.  Error objects are
  represented by references (`JVal.err id`) into an explicit heap
  (`ErrHeap`), so that `cause` cycles between Error objects are representable.
- JS objects are association lists in insertion order; object-literal
  construction with spreads is `buildObj`, whose semantics (later entry wins a
  key tie, first occurrence position kept) matches JS property assignment.
- Machine integers: the JS numbers that occur here (level weights, epoch
  milliseconds, buffer sizes) are small integers, modelled as Nat/Int.
- Fallible code returns `Except JsErrCode`.
-/

namespace NodeLog

/-- A JavaScript value.  `obj` is a plain object (constructor `Object`),
`arr` an array (constructor `Array`), `custom` any other non-Error object,
`func` a function, and `err id` an Error object stored in an `ErrHeap`
under `id` (errors live in a heap so that `cause` cycles are expressible). -/
inductive JVal where
  | undefined
  | null
  | str (s : String)
  | num (n : Int)
  | bool (b : Bool)
  | obj (fields : List (String × JVal))
  | arr (elems : List JVal)
  | custom (fields : List (String × JVal))
  | func
  | err (id : Nat)
  deriving Repr

/-- JS truthiness (`undefined`, `null`, `false`, `0`, `""` are falsy). -/
def truthy : JVal → Bool
  | .undefined => false
  | .null => false
  | .bool b => b
  | .num n => decide (n ≠ 0)
  | .str s => decide (s ≠ "")
  | _ => true

/-- Whether `typeof v === 'string'`. -/
def isStringV : JVal → Bool
  | .str _ => true
  | _ => false

/-- `ErrorIsError(v)`: whether the value is an Error object. -/
def isErrorV : JVal → Bool
  | .err _ => true
  | _ => false

/-- The check performed by `validateObject` (default options): the value must
be a non-null non-array object (functions are rejected as well). -/
def isValidObjectB : JVal → Bool
  | .obj _ => true
  | .custom _ => true
  | .err _ => true
  | _ => false

/-- First-occurrence lookup in an association list (JS property read;
`none` means the key is absent). -/
def lookupKey (es : List (String × JVal)) (k : String) : Option JVal :=
  (es.find? (fun e => e.1 = k)).map Prod.snd

/-- JS property read where an absent key reads as `undefined`. -/
def jsLookup (es : List (String × JVal)) (k : String) : JVal :=
  (lookupKey es k).getD .undefined

/-- JS property assignment on an object represented as an association list:
replace the value at the key's existing slot (keeping its position), or
append the new key at the end.  JS objects never hold duplicate keys, so
replacing the first occurrence is the exact JS semantics. -/
def setKey : List (String × JVal) → String → JVal → List (String × JVal)
  | [], k, v => [(k, v)]
  | e :: rest, k, v =>
    if e.1 = k then (k, v) :: rest else e :: setKey rest k v

/-- Build a JS object from a sequence of key/value entries (an object literal
with spreads, flattened): entries are assigned left to right, so a later
entry wins a key tie. -/
def buildObj (entries : List (String × JVal)) : List (String × JVal) :=
  entries.foldl (fun acc e => setKey acc e.1 e.2) []

/-- The value of the last entry carrying key `k` in an entry sequence. -/
def lastVal (es : List (String × JVal)) (k : String) : Option JVal :=
  match es with
  | [] => none
  | e :: rest =>
    match lastVal rest k with
    | some v => some v
    | none => if e.1 = k then some e.2 else none

def jsonQuoteChar (c : Char) : String :=
  if c = '"' then "\\\""
  else if c = '\\' then "\\\\"
  else if c = '\n' then "\\n"
  else if c = '\r' then "\\r"
  else if c = '\t' then "\\t"
  else if c = '\x08' then "\\b"
  else if c = '\x0c' then "\\f"
  else if c.toNat < 32 then
    "\\u00" ++ (if c.toNat < 16 then "0" else "") ++
      String.mk (Nat.toDigits 16 c.toNat)
  else String.singleton c

/-- A JSON string literal for `s`, double-quoted and escaped. -/
def jsonQuote (s : String) : String :=
  "\"" ++ String.join (s.toList.map jsonQuoteChar) ++ "\""

def joinComma (l : List String) : String := String.intercalate "," l

/-
`JSON.stringify` of a property value; `none` means the value (a function or
`undefined`) is omitted from objects and rendered `null` in arrays.  Error
objects are rendered as `\x7b\x7d` (an Error has no own enumerable properties
in this model's JSON view); cyclic values, on which `JSON.stringify` throws,
are not representable in `JVal` and are outside this model.
-/
mutual

def jsonMem : JVal → Option String
  | .undefined => none
  | .func => none
  | .null => some "null"
  | .str s => some (jsonQuote s)
  | .num i => some (toString i)
  | .bool b => some (cond b "true" "false")
  | .obj fs => some ("\x7b" ++ joinComma (jsonFields fs) ++ "\x7d")
  | .arr es => some ("[" ++ joinComma (jsonElems es) ++ "]")
  | .custom fs => some ("\x7b" ++ joinComma (jsonFields fs) ++ "\x7d")
  | .err _ => some "\x7b\x7d"

def jsonFields : List (String × JVal) → List String
  | [] => []
  | e :: r =>
    match jsonMem e.2 with
    | none => jsonFields r
    | some s => (jsonQuote e.1 ++ ":" ++ s) :: jsonFields r

def jsonElems : List JVal → List String
  | [] => []
  | v :: r => (jsonMem v).getD "null" :: jsonElems r

end

/-- `JSON.stringify(v)` (total on the values it is applied to here: the
callers only pass objects and arrays at top level). -/
def jsonStr (v : JVal) : String := (jsonMem v).getD "null"

/-
Level table (RFC5424 ordering): trace=10, debug=20, info=30, warn=40,
error=50, fatal=60.  `LEVELS` is the JS lookup `LEVELS[level]`, which yields
`undefined` (here `none`) for an unrecognized name.
-/

def LEVELS (s : String) : Option Nat :=
  if s = "trace" then some 10
  else if s = "debug" then some 20
  else if s = "info" then some 30
  else if s = "warn" then some 40
  else if s = "error" then some 50
  else if s = "fatal" then some 60
  else none

def LEVEL_NAMES : List String :=
  ["trace", "debug", "info", "warn", "error", "fatal"]

inductive LevelName where
  | trace | debug | info | warn | error | fatal
  deriving Repr, DecidableEq

def LevelName.name : LevelName → String
  | .trace => "trace"
  | .debug => "debug"
  | .info => "info"
  | .warn => "warn"
  | .error => "error"
  | .fatal => "fatal"

def LevelName.weight : LevelName → Nat
  | .trace => 10
  | .debug => 20
  | .info => 30
  | .warn => 40
  | .error => 50
  | .fatal => 60

/-- Error codes thrown by the module (internal/errors codes). -/
inductive JsErrCode where
  | invalidArgType
  | invalidArgValue
  | methodNotImplemented
  deriving Repr, DecidableEq

def validateObjectE (v : JVal) : Except JsErrCode Unit :=
  if isValidObjectB v then .ok () else .error .invalidArgType

def validateStringE (v : JVal) : Except JsErrCode Unit :=
  if isStringV v then .ok () else .error .invalidArgType

/-
Error objects.  An Error is a property map (key, value, enumerable flag);
`message`, `name`, `stack`, `code`, `cause` are ordinary property reads on
it, and `for...in` iterates the enumerable entries in order.  Errors are
stored in a heap keyed by id so `cause` can refer back to an ancestor.
-/

structure PropEntry where
  key : String
  val : JVal
  enumerable : Bool
  deriving Repr

abbrev ErrHeap := List (Nat × List PropEntry)

/-- Property read on an Error object (absent reads as `undefined`). -/
def getProp (props : List PropEntry) (k : String) : JVal :=
  match props.find? (fun p => p.key = k) with
  | some p => p.val
  | none => .undefined

/-- The `for...in` view of an Error object: its enumerable entries, in order. -/
def enumEntries (props : List PropEntry) : List (String × JVal) :=
  (props.filter (fun p => p.enumerable)).map (fun p => (p.key, p.val))

/-- Heap lookup by error id. -/
def heapFind (heap : ErrHeap) (id : Nat) : Option (List PropEntry) :=
  match heap with
  | [] => none
  | (i, ps) :: rest => if i = id then some ps else heapFind rest id

/-- The ids present in the heap. -/
def heapIds (heap : ErrHeap) : Finset Nat := (heap.map Prod.fst).toFinset

def setIfUndefined (es : List (String × JVal)) (k : String) (v : JVal) :
    List (String × JVal) :=
  match jsLookup es k with
  | .undefined => setKey es k v
  | _ => es

def serializedReservedWith (recurse : Nat → JVal) (props : List PropEntry) :
    List (String × JVal) :=
  let base := [("message", getProp props "message"),
               ("name", getProp props "name"),
               ("stack", getProp props "stack")]
  let withCode :=
    match getProp props "code" with
    | .undefined => base
    | c => setKey base "code" c
  match getProp props "cause" with
  | .undefined => withCode
  | .err cid => setKey withCode "cause" (recurse cid)
  | c => setKey withCode "cause" c

/-- One unfolding of `Logger#_serializeError`, parameterized by the
recursive call. -/
def serializeBody (recurse : Nat → Finset Nat → JVal) (heap : ErrHeap)
    (id : Nat) (seen : Finset Nat) : JVal :=
  if id ∈ seen then .str "[Circular]"
  else
    match heapFind heap id with
    | none => .undefined
    | some props =>
      .obj ((enumEntries props).foldl
        (fun acc e => setIfUndefined acc e.1 e.2)
        (serializedReservedWith (fun cid => recurse cid (insert id seen)) props))

/-- `Logger#_serializeError` with explicit fuel.  The recursion in the source
terminates because `seen` grows by one heap id at every recursive step; the
fuel only makes that measure explicit, and `serializeError` below always
supplies enough for the `0` case to be unreachable. -/
def serializeErrorF : Nat → ErrHeap → Nat → Finset Nat → JVal
  | 0, _, _, _ => .undefined
  | fuel + 1, heap, id, seen =>
    serializeBody (fun cid s2 => serializeErrorF fuel heap cid s2) heap id seen

/-- `Logger#_serializeError(err, seen)`: serialize the Error under `id`,
substituting the `"[Circular]"` sentinel when `id` is already on the current
recursion path `seen`. -/
def serializeError (heap : ErrHeap) (id : Nat) (seen : Finset Nat) : JVal :=
  serializeErrorF ((heapIds heap \ seen).card + 1) heap id seen

structure Logger where
  level : String
  levelValue : Nat
  bindings : JVal

structure LogConsumer where
  level : String
  levelValue : Nat

structure JSONConsumer where
  consumer : LogConsumer
  staticFields : JVal

structure LogRecord where
  level : String
  msg : JVal
  time : Nat
  bindings : JVal
  fields : JVal

/-- JS property read `v[k]` on an arbitrary value. -/
def jsGetProp (heap : ErrHeap) (v : JVal) (k : String) : JVal :=
  match v with
  | .obj fs => jsLookup fs k
  | .custom fs => jsLookup fs k
  | .err id =>
    match heapFind heap id with
    | some props => getProp props k
    | none => .undefined
  | _ => .undefined

/-- The own enumerable entries of a value, as object spread (`...v`) and
`ObjectAssign` enumerate them.  Spreading a primitive yields nothing except
for strings, which spread their indexed characters. -/
def spreadEntries (heap : ErrHeap) : JVal → List (String × JVal)
  | .obj fs => fs
  | .custom fs => fs
  | .err id =>
    match heapFind heap id with
    | some props => enumEntries props
    | none => []
  | .arr es => es.enum.map (fun e => (toString e.1, e.2))
  | .str s => s.toList.enum.map
      (fun e => (toString e.1, .str (String.singleton e.2)))
  | _ => []

/-- A destructuring default: `const \x7b level = d \x7d = options` takes the
default exactly when the property reads `undefined`. -/
def jsDefault (v d : JVal) : JVal :=
  match v with
  | .undefined => d
  | x => x

/-- `new Logger(options)`: validate the options object, the level name and
the bindings, caching the numeric level value. -/
def loggerOfOptions (heap : ErrHeap) (options : JVal) :
    Except JsErrCode Logger :=
  match validateObjectE options with
  | .error e => .error e
  | .ok () =>
    let level := jsDefault (jsGetProp heap options "level") (.str "info")
    match validateStringE level with
    | .error e => .error e
    | .ok () =>
      match level with
      | .str s =>
        match LEVELS s with
        | none => .error .invalidArgValue
        | some w =>
          let bindings :=
            jsDefault (jsGetProp heap options "bindings") (.obj [])
          match validateObjectE bindings with
          | .error e => .error e
          | .ok () => .ok { level := s, levelValue := w, bindings := bindings }
      | _ => .error .invalidArgType

/-- `Logger#enabled(level)`: `LEVELS[level] >= this._levelValue`, where an
unrecognized name reads `undefined` and the comparison is then false. -/
def Logger.enabled (lg : Logger) (level : String) : Bool :=
  match LEVELS level with
  | some w => decide (lg.levelValue ≤ w)
  | none => false

/-- `LogConsumer#enabled(level)`: same comparison as `Logger#enabled`. -/
def LogConsumer.enabled (c : LogConsumer) (level : String) : Bool :=
  match LEVELS level with
  | some w => decide (c.levelValue ≤ w)
  | none => false

/-- `Logger#child(bindings, options)`: validate both arguments, shallow-merge
the parent bindings with the child's (child entries spread second, so they
win key ties), and construct a new Logger at `options.level || this._level`. -/
def Logger.child (lg : Logger) (heap : ErrHeap) (bindings : JVal)
    (options : JVal) : Except JsErrCode Logger :=
  match validateObjectE bindings with
  | .error e => .error e
  | .ok () =>
    match validateObjectE options with
    | .error e => .error e
    | .ok () =>
      let merged := JVal.obj (buildObj
        (spreadEntries heap lg.bindings ++ spreadEntries heap bindings))
      let lvOpt := jsGetProp heap options "level"
      loggerOfOptions heap (.obj
        [("level", if truthy lvOpt then lvOpt else .str lg.level),
         ("bindings", merged)])

/-- Whether `v === undefined`. -/
def isUndefV : JVal → Bool
  | .undefined => true
  | _ => false

/-- The validation step at the top of `Logger#_log`: for a string message
validate the `fields` when they are not `undefined`; an Error input is not
validated at all; any other input must be an object carrying a string
`msg`. -/
def logValidate (heap : ErrHeap) (msgOrObj fields : JVal) :
    Except JsErrCode Unit :=
  if isStringV msgOrObj then
    if isUndefV fields then .ok () else validateObjectE fields
  else if isErrorV msgOrObj then .ok ()
  else
    match validateObjectE msgOrObj with
    | .error e => .error e
    | .ok () => validateStringE (jsGetProp heap msgOrObj "msg")

/-- The record built by `Logger#_log` for an input that passed validation:
an Error input serializes into `fields.err` and its `message` becomes `msg`;
a string input takes the caller's fields object as is (or `\x7b\x7d`); any
other object has its `msg` destructured out, the rest becoming `fields`,
with an Error-valued `err` field serialized in place. -/
def logRecordOf (lg : Logger) (heap : ErrHeap) (now : Nat) (level : String)
    (msgOrObj fields : JVal) : LogRecord :=
  match msgOrObj with
  | .err id =>
    { level := level,
      msg := jsGetProp heap (.err id) "message",
      time := now,
      bindings := lg.bindings,
      fields := .obj (buildObj
        (("err", serializeError heap id ∅) :: spreadEntries heap fields)) }
  | .str s =>
    { level := level,
      msg := .str s,
      time := now,
      bindings := lg.bindings,
      fields := if truthy fields then fields else .obj [] }
  | m =>
    let rest := (spreadEntries heap m).filter (fun e => !(e.1 == "msg"))
    let rest2 :=
      match jsLookup rest "err" with
      | .err eid => setKey rest "err" (serializeError heap eid ∅)
      | _ => rest
    { level := level,
      msg := jsGetProp heap m "msg",
      time := now,
      bindings := lg.bindings,
      fields := .obj rest2 }

/-- `Logger#_log(level, levelValue, msgOrObj, fields)`: threshold check,
validation, `hasSubscribers` check, record construction, publish.  The
returned list holds the records published to the channel (empty when the
call is dropped); `hasSubs` is the channel registry's `hasSubscribers` per
level name and `now` is `DateNow()`. -/
def Logger.logAt (lg : Logger) (heap : ErrHeap) (hasSubs : String → Bool)
    (now : Nat) (level : String) (levelValue : Nat) (msgOrObj : JVal)
    (fields : JVal) : Except JsErrCode (List LogRecord) :=
  if levelValue < lg.levelValue then .ok []
  else
    match logValidate heap msgOrObj fields with
    | .error e => .error e
    | .ok () =>
      if !hasSubs level then .ok []
      else .ok [logRecordOf lg heap now level msgOrObj fields]

/-- A public log method (`trace`/`debug`/`info`/`warn`/`error`/`fatal`):
`_setLogMethods` rebinds the method to `noop` exactly when
`this._levelValue > LEVELS[name]`; otherwise the method forwards to `_log`
with its constant level name and weight. -/
def Logger.callMethod (lg : Logger) (heap : ErrHeap) (hasSubs : String → Bool)
    (now : Nat) (L : LevelName) (msgOrObj : JVal) (fields : JVal) :
    Except JsErrCode (List LogRecord) :=
  if L.weight < lg.levelValue then Except.ok []
  else lg.logAt heap hasSubs now L.name L.weight msgOrObj fields

/-- The object literal built by `JSONConsumer#handle`:
`\x7b level, time, msg, ...this._fields, ...record.bindings,
...record.fields \x7d`. -/
def handleLogObj (heap : ErrHeap) (c : JSONConsumer) (r : LogRecord) :
    List (String × JVal) :=
  buildObj ([("level", .str r.level),
             ("time", .num (Int.ofNat r.time)),
             ("msg", r.msg)]
    ++ spreadEntries heap c.staticFields
    ++ spreadEntries heap r.bindings
    ++ spreadEntries heap r.fields)

/-- `JSONConsumer#handle(record)`: the single line passed to
`this._stream.write`, i.e. `JSONStringify(logObj) + '\n'`. -/
def JSONConsumer.handle (c : JSONConsumer) (heap : ErrHeap) (r : LogRecord) :
    String :=
  jsonStr (.obj (handleLogObj heap c r)) ++ "\n"

/-
The buffered console write scheduler (optimizedMethods.log / flushBuffer /
scheduleFlush).  `written` accumulates the lines written to the stream and
`flushCount` counts performed flushes; `message.length` is the JS string
length (UTF-16 units), modelled as the character count.
-/

def kBufferFlushThreshold : Nat := 16 * 1024

structure ConsoleBuf where
  logBuffer : List String
  bufferSize : Nat
  flushScheduled : Bool
  timerArmed : Bool
  written : List String
  flushCount : Nat
  deriving Repr, DecidableEq

/-- `flushBuffer()`: drain the whole queue as one batch, reset the size and
scheduling state, and write every drained message with a trailing newline. -/
def flushBuffer (s : ConsoleBuf) : ConsoleBuf :=
  if s.logBuffer = [] then s
  else
    { logBuffer := []
      bufferSize := 0
      flushScheduled := false
      timerArmed := false
      written := s.written ++ s.logBuffer.map (fun m => m ++ "\n")
      flushCount := s.flushCount + 1 }

/-- `scheduleFlush()`: arm the immediate task and the fallback timer once. -/
def scheduleFlush (s : ConsoleBuf) : ConsoleBuf :=
  if s.flushScheduled then s
  else { s with flushScheduled := true, timerArmed := true }

/-- `optimizedMethods.log` after the message is computed: push the entry,
grow the size, and flush immediately when the size reaches the high-water
mark or the entry count reaches 100, otherwise schedule a deferred flush. -/
def consoleLog (s : ConsoleBuf) (message : String) : ConsoleBuf :=
  let s2 := { s with logBuffer := s.logBuffer ++ [message],
                     bufferSize := s.bufferSize + message.length }
  if kBufferFlushThreshold ≤ s2.bufferSize ∨ 100 ≤ s2.logBuffer.length then
    flushBuffer s2
  else
    scheduleFlush s2

def initialConsoleBuf : ConsoleBuf :=
  { logBuffer := [], bufferSize := 0, flushScheduled := false,
    timerArmed := false, written := [], flushCount := 0 }

/-
fastStringify and the spec's structural-plainness classification.
-/

mutual

/-- Modelled from the spec: structural plainness, i.e. a value composed
transitively only of primitives and plain containers.  This is the spec's
classification (section 4.6), stated here to compare with what the code's
`fastStringify` actually does. -/
def structurallyPlain : JVal → Bool
  | .obj fs => plainFields fs
  | .arr es => plainElems es
  | .custom _ => false
  | .func => false
  | .err _ => false
  | _ => true

def plainFields : List (String × JVal) → Bool
  | [] => true
  | e :: r => structurallyPlain e.2 && plainFields r

def plainElems : List JVal → Bool
  | [] => true
  | v :: r => structurallyPlain v && plainElems r

end

/-- `fastStringify(obj)` (the buffered console's dual-path stringifier),
parameterized by the external general-purpose inspector (`util.inspect`).
Primitives convert directly; a value whose constructor is `Object` or
`Array` is passed to `JSON.stringify` (regardless of what it contains);
everything else (custom objects, Errors, functions) falls through to the
inspector.  Cyclic values, where `JSON.stringify` throws and the catch
falls back to the inspector, are not representable in `JVal`. -/
def fastStringify (inspect : JVal → String) (v : JVal) : String :=
  match v with
  | .null => "null"
  | .undefined => "undefined"
  | .str s => s
  | .num n => toString n
  | .bool b => cond b "true" "false"
  | .obj fs => jsonStr (.obj fs)
  | .arr es => jsonStr (.arr es)
  | v => inspect v

/-- The records published by a log call (none when it threw). -/
def recordsOf : Except JsErrCode (List LogRecord) → List LogRecord
  | .ok l => l
  | .error _ => []

/-
Concrete data used by witnesses and counterexamples.
-/

/-- A channel registry in which every level has subscribers. -/
def hs0 : String → Bool := fun _ => true

def lgInfo : Logger := { level := "info", levelValue := 30, bindings := .obj [] }

def lgWarn : Logger := { level := "warn", levelValue := 40, bindings := .obj [] }

def lgSvc : Logger :=
  { level := "info", levelValue := 30, bindings := .obj [("svc", .str "api")] }

def consInfo : LogConsumer := { level := "info", levelValue := 30 }

/-- A heap with a single Error whose `cause` is itself. -/
def heapEx : ErrHeap :=
  [(0, [{ key := "message", val := .str "boom", enumerable := false },
        { key := "cause", val := .err 0, enumerable := false }])]

def propsEx : List PropEntry :=
  [{ key := "message", val := .str "boom", enumerable := false },
   { key := "cause", val := .err 0, enumerable := false }]

/-- An Error with falsy reserved properties (`message` is `""`, `code` is
`0`) and one extra own enumerable property. -/
def props7 : List PropEntry :=
  [{ key := "message", val := .str "", enumerable := false },
   { key := "name", val := .str "E", enumerable := false },
   { key := "code", val := .num 0, enumerable := false },
   { key := "userId", val := .num 7, enumerable := true }]

def heap7 : ErrHeap := [(0, props7)]

def consEx : JSONConsumer :=
  { consumer := { level := "info", levelValue := 30 },
    staticFields := .obj [("a", .num 1)] }

def recEx : LogRecord :=
  { level := "info", msg := .str "hit", time := 5,
    bindings := .obj [("a", .num 2), ("b", .num 1)],
    fields := .obj [("a", .num 3)] }

def bEx : JVal := .obj [("req", .str "1")]

def oEx : JVal := .obj [("level", .str "debug")]

def inspectMark : JVal → String := fun _ => "[inspected]"

def inspectOther : JVal → String := fun _ => "[other]"

def vC9 : JVal := .obj [("a", .custom [])]

def vPlain : JVal := .obj [("a", .num 1)]

/-- A console buffer state holding one one-byte entry. -/
def cbufEx : ConsoleBuf :=
  { logBuffer := ["a"], bufferSize := 1, flushScheduled := true,
    timerArmed := true, written := [], flushCount := 0 }

/-
Theorems.
-/

theorem lookupKey_nil (k : String) : lookupKey [] k = none := rfl

theorem lookupKey_cons (e : String × JVal) (es : List (String × JVal))
    (k : String) :
    lookupKey (e :: es) k = if e.1 = k then some e.2 else lookupKey es k := by
  by_cases h : e.1 = k <;> simp [lookupKey, List.find?_cons, h]

theorem lookupKey_setKey (es : List (String × JVal)) (k : String) (v : JVal)
    (k1 : String) :
    lookupKey (setKey es k v) k1 =
      if k1 = k then some v else lookupKey es k1 := by
  induction es with
  | nil =>
    by_cases h : k1 = k
    · subst h
      simp [setKey, lookupKey_cons]
    · simp [setKey, lookupKey_cons, lookupKey_nil, h, Ne.symm h]
  | cons e rest ih =>
    by_cases he : e.1 = k
    · subst he
      rw [setKey, if_pos rfl]
      by_cases h1 : k1 = e.1
      · subst h1
        simp [lookupKey_cons]
      · rw [if_neg h1, lookupKey_cons, lookupKey_cons]
        have h2 : ¬ e.1 = k1 := fun hc => h1 hc.symm
        simp [h2]
    · rw [setKey, if_neg he, lookupKey_cons, ih]
      by_cases h1 : e.1 = k1
      · have hk : ¬ k1 = k := fun hc => he (by rw [h1, hc])
        rw [if_pos h1, if_neg hk, lookupKey_cons, if_pos h1]
      · rw [if_neg h1]
        by_cases h2 : k1 = k
        · rw [if_pos h2, if_pos h2]
        · rw [if_neg h2, if_neg h2, lookupKey_cons, if_neg h1]

theorem lookupKey_foldl_setKey (es : List (String × JVal))
    (acc : List (String × JVal)) (k : String) :
    lookupKey (es.foldl (fun a e => setKey a e.1 e.2) acc) k =
      match lastVal es k with
      | some v => some v
      | none => lookupKey acc k := by
  induction es generalizing acc with
  | nil => simp [lastVal]
  | cons e rest ih =>
    rw [List.foldl_cons, ih]
    cases hr : lastVal rest k with
    | some v => simp [lastVal, hr]
    | none =>
      simp only [lastVal, hr, lookupKey_setKey]
      by_cases h : e.1 = k
      · subst h
        simp
      · have h2 : ¬ k = e.1 := fun hc => h hc.symm
        simp [h, h2]

/-- Lookup in a built object returns the value of the last entry for the key:
later entries (later spread sources) win key ties. -/
theorem lookupKey_buildObj (es : List (String × JVal)) (k : String) :
    lookupKey (buildObj es) k = lastVal es k := by
  rw [buildObj, lookupKey_foldl_setKey]
  cases lastVal es k <;> simp [lookupKey_nil]

theorem lastVal_append (xs ys : List (String × JVal)) (k : String) :
    lastVal (xs ++ ys) k =
      match lastVal ys k with
      | some v => some v
      | none => lastVal xs k := by
  induction xs with
  | nil =>
    simp only [List.nil_append]
    cases lastVal ys k <;> simp [lastVal]
  | cons x xs ih =>
    show (match lastVal (xs ++ ys) k with
          | some v => some v
          | none => if x.1 = k then some x.2 else none) = _
    rw [ih]
    cases hy : lastVal ys k <;> cases hx : lastVal xs k <;>
      simp [lastVal, hy, hx]

/-- JSON string escaping for one character, as `JSON.stringify` performs it. -/
theorem LEVELS_eq_none_of_not_mem (s : String) (h : s ∉ LEVEL_NAMES) :
    LEVELS s = none := by
  simp only [LEVEL_NAMES, List.mem_cons, List.mem_singleton] at h
  push_neg at h
  obtain ⟨h1, h2, h3, h4, h5, h6⟩ := h
  simp [LEVELS, h1, h2, h3, h4, h5, h6]

/-- The six public log methods, each bound to a level name and weight. -/
theorem heapFind_mem_heapIds (heap : ErrHeap) (id : Nat)
    (ps : List PropEntry) (h : heapFind heap id = some ps) :
    id ∈ heapIds heap := by
  induction heap with
  | nil => simp [heapFind] at h
  | cons e rest ih =>
    rw [heapFind] at h
    by_cases he : e.1 = id
    · simp [heapIds, List.mem_toFinset]
      exact Or.inl he.symm
    · rw [if_neg he] at h
      have := ih h
      simp only [heapIds, List.map_cons, List.mem_toFinset, List.mem_cons]
      right
      simpa [heapIds, List.mem_toFinset] using this

/-- `serialized[key] = err[key]` guarded by `serialized[key] === undefined`:
assign only when the key is absent or currently holds `undefined`. -/
theorem jsLookup_setKey (es : List (String × JVal)) (k : String) (v : JVal)
    (k1 : String) :
    jsLookup (setKey es k v) k1 = if k1 = k then v else jsLookup es k1 := by
  unfold jsLookup
  rw [lookupKey_setKey]
  by_cases h : k1 = k <;> simp [h]

/-- The reserved part of a serialized error: the base object literal
`\x7bmessage, name, stack\x7d`, then `code` when defined, then `cause` when
defined (serializing an Error-valued cause through `recurse`). -/
theorem card_sdiff_insert_lt (A s : Finset Nat) (id : Nat)
    (hA : id ∈ A) (hs : id ∉ s) :
    (A \ insert id s).card < (A \ s).card := by
  have hsub : A \ insert id s ⊆ A \ s := by
    intro x hx
    simp only [Finset.mem_sdiff, Finset.mem_insert] at hx ⊢
    exact ⟨hx.1, fun hxs => hx.2 (Or.inr hxs)⟩
  have hid : id ∈ A \ s := Finset.mem_sdiff.mpr ⟨hA, hs⟩
  have hnid : id ∉ A \ insert id s := by
    simp [Finset.mem_sdiff]
  exact Finset.card_lt_card
    ((Finset.ssubset_iff_of_subset hsub).mpr ⟨id, hid, hnid⟩)

theorem serializeBody_congr (r1 r2 : Nat → Finset Nat → JVal) (heap : ErrHeap)
    (id : Nat) (seen : Finset Nat)
    (h : ∀ cid, id ∉ seen → (∃ ps, heapFind heap id = some ps) →
      r1 cid (insert id seen) = r2 cid (insert id seen)) :
    serializeBody r1 heap id seen = serializeBody r2 heap id seen := by
  unfold serializeBody
  by_cases hs : id ∈ seen
  · simp [hs]
  · simp only [if_neg hs]
    cases hf : heapFind heap id with
    | none => rfl
    | some props =>
      have hrec : (fun cid => r1 cid (insert id seen)) =
          (fun cid => r2 cid (insert id seen)) := by
        funext cid
        exact h cid hs ⟨props, hf⟩
      rw [hrec]

theorem serializeErrorF_congr (f1 : Nat) :
    ∀ (f2 : Nat) (heap : ErrHeap) (id : Nat) (seen : Finset Nat),
      (heapIds heap \ seen).card < f1 → (heapIds heap \ seen).card < f2 →
      serializeErrorF f1 heap id seen = serializeErrorF f2 heap id seen := by
  induction f1 with
  | zero =>
    intro f2 heap id seen h1 _
    omega
  | succ n ih =>
    intro f2 heap id seen h1 h2
    match f2 with
    | 0 => omega
    | m + 1 =>
      rw [serializeErrorF, serializeErrorF]
      apply serializeBody_congr
      intro cid hs hf
      obtain ⟨ps, hps⟩ := hf
      have hmem := heapFind_mem_heapIds heap id ps hps
      have hlt := card_sdiff_insert_lt (heapIds heap) seen id hmem hs
      exact ih _ heap cid (insert id seen) (by omega) (by omega)

/-- The defining unfolding of `serializeError`: one step of the body, with
the recursive occurrences again `serializeError`. -/
theorem serializeError_eq (heap : ErrHeap) (id : Nat) (seen : Finset Nat) :
    serializeError heap id seen =
      serializeBody (fun cid s2 => serializeError heap cid s2) heap id seen := by
  rw [serializeError, serializeErrorF]
  apply serializeBody_congr
  intro cid hs hf
  obtain ⟨ps, hps⟩ := hf
  have hmem := heapFind_mem_heapIds heap id ps hps
  have hlt := card_sdiff_insert_lt (heapIds heap) seen id hmem hs
  exact serializeErrorF_congr _ _ heap cid (insert id seen) (by omega)
    (by omega)

theorem jsLookup_setIfUndefined_ne (acc : List (String × JVal))
    (e1 : String) (e2 : JVal) (k : String) (h : ¬ e1 = k) :
    jsLookup (setIfUndefined acc e1 e2) k = jsLookup acc k := by
  unfold setIfUndefined
  have hne : ¬ k = e1 := fun hc => h hc.symm
  split
  · rw [jsLookup_setKey, if_neg hne]
  · rfl

/-- A `for...in` copy pass never changes a key that already holds a value
other than `undefined` (the `serialized[key] === undefined` guard). -/
theorem jsLookup_foldl_keep (es : List (String × JVal))
    (acc : List (String × JVal)) (k : String)
    (h : jsLookup acc k ≠ .undefined) :
    jsLookup (es.foldl (fun a e => setIfUndefined a e.1 e.2) acc) k =
      jsLookup acc k := by
  induction es generalizing acc with
  | nil => rfl
  | cons e rest ih =>
    rw [List.foldl_cons]
    by_cases hek : e.1 = k
    · have hstep : setIfUndefined acc e.1 e.2 = acc := by
        unfold setIfUndefined
        rw [hek]
        cases hv : jsLookup acc k
        · exact absurd hv h
        all_goals rfl
      rw [hstep]
      exact ih acc h
    · rw [ih]
      · exact jsLookup_setIfUndefined_ne acc e.1 e.2 k hek
      · rw [jsLookup_setIfUndefined_ne acc e.1 e.2 k hek]
        exact h

/-- A `for...in` copy pass never touches a key that none of the iterated
entries carries. -/
theorem jsLookup_foldl_not_mem (es : List (String × JVal))
    (acc : List (String × JVal)) (k : String)
    (h : k ∉ es.map Prod.fst) :
    jsLookup (es.foldl (fun a e => setIfUndefined a e.1 e.2) acc) k =
      jsLookup acc k := by
  induction es generalizing acc with
  | nil => rfl
  | cons e rest ih =>
    rw [List.foldl_cons]
    simp only [List.map_cons, List.mem_cons] at h
    push_neg at h
    rw [ih _ h.2]
    exact jsLookup_setIfUndefined_ne acc e.1 e.2 k (fun hc => h.1 hc.symm)

/-- A `for...in` copy pass copies the value of an iterated entry whose key
is currently absent or `undefined` (given no duplicate keys among the
iterated entries). -/
theorem jsLookup_foldl_copy (es : List (String × JVal))
    (acc : List (String × JVal)) (k : String) (v : JVal)
    (hnodup : (es.map Prod.fst).Nodup) (hmem : (k, v) ∈ es)
    (hacc : jsLookup acc k = .undefined) :
    jsLookup (es.foldl (fun a e => setIfUndefined a e.1 e.2) acc) k = v := by
  induction es generalizing acc with
  | nil => exact absurd hmem (List.not_mem_nil _)
  | cons e rest ih =>
    rw [List.foldl_cons]
    simp only [List.map_cons, List.nodup_cons] at hnodup
    rcases List.mem_cons.mp hmem with heq | hrest
    · subst heq
      have hstep : setIfUndefined acc k v = setKey acc k v := by
        unfold setIfUndefined
        rw [hacc]
      rw [hstep]
      have hnot : k ∉ rest.map Prod.fst := by
        simpa using hnodup.1
      rw [jsLookup_foldl_not_mem rest _ k hnot, jsLookup_setKey, if_pos rfl]
    · have hek : ¬ e.1 = k := by
        intro hc
        exact hnodup.1 (hc ▸ (List.mem_map.mpr ⟨(k, v), hrest, rfl⟩))
      rw [ih _ hnodup.2 hrest]
      rw [jsLookup_setIfUndefined_ne acc e.1 e.2 k hek]
      exact hacc

/-
Logger, consumers, records.
-/

theorem serializedReservedWith_keys (recurse : Nat → JVal)
    (props : List PropEntry) (k : String)
    (h : k ∉ ["message", "name", "stack", "code", "cause"]) :
    jsLookup (serializedReservedWith recurse props) k = .undefined := by
  simp only [List.mem_cons, List.not_mem_nil, or_false, not_or] at h
  obtain ⟨h1, h2, h3, h4, h5⟩ := h
  unfold serializedReservedWith
  split <;> split <;>
    simp [lookupKey_setKey, h4, h5, jsLookup, lookupKey_cons, lookupKey_nil,
      Ne.symm h1, Ne.symm h2, Ne.symm h3]

theorem enumEntries_keys_nodup (props : List PropEntry)
    (h : (props.map PropEntry.key).Nodup) :
    ((enumEntries props).map Prod.fst).Nodup := by
  unfold enumEntries
  rw [List.map_map]
  have hf : (Prod.fst ∘ fun p : PropEntry => (p.key, p.val)) =
      PropEntry.key := rfl
  rw [hf]
  exact List.Nodup.sublist
    (List.Sublist.map PropEntry.key (List.filter_sublist props)) h

theorem mem_enumEntries (props : List PropEntry) (p : PropEntry)
    (hp : p ∈ props) (he : p.enumerable = true) :
    (p.key, p.val) ∈ enumEntries props :=
  List.mem_map.mpr ⟨p, List.mem_filter.mpr ⟨hp, by simp [he]⟩, rfl⟩

theorem level_name_props (s : String) (h : s ∈ LEVEL_NAMES) :
    truthy (.str s) = true ∧ ∃ w, LEVELS s = some w := by
  simp only [LEVEL_NAMES, List.mem_cons, List.not_mem_nil, or_false] at h
  rcases h with h | h | h | h | h | h <;> subst h
  · exact ⟨by decide, 10, by decide⟩
  · exact ⟨by decide, 20, by decide⟩
  · exact ⟨by decide, 30, by decide⟩
  · exact ⟨by decide, 40, by decide⟩
  · exact ⟨by decide, 50, by decide⟩
  · exact ⟨by decide, 60, by decide⟩

theorem not_mem_keys_setKey (es : List (String × JVal)) (k : String)
    (v : JVal) (k1 : String) (h1 : k1 ∉ es.map Prod.fst) (h2 : k1 ≠ k) :
    k1 ∉ (setKey es k v).map Prod.fst := by
  induction es with
  | nil => simpa [setKey] using h2
  | cons e rest ih =>
    simp only [List.map_cons, List.mem_cons] at h1
    push_neg at h1
    rw [setKey]
    by_cases he : e.1 = k
    · rw [if_pos he]
      simp only [List.map_cons, List.mem_cons]
      push_neg
      exact ⟨h2, h1.2⟩
    · rw [if_neg he]
      simp only [List.map_cons, List.mem_cons]
      push_neg
      exact ⟨h1.1, ih h1.2⟩

theorem msg_not_mem_filter_keys (es : List (String × JVal)) :
    "msg" ∉ (es.filter (fun e => !(e.1 == "msg"))).map Prod.fst := by
  intro h
  obtain ⟨e, he, hk⟩ := List.mem_map.mp h
  have hp := (List.mem_filter.mp he).2
  rw [hk] at hp
  simp at hp

/-- C1: for a Logger whose threshold weight exceeds a level's weight, that
level's log method is a no-op for any input: it publishes no record, writes
nothing and throws nothing.  This holds at both layers the source provides:
`_setLogMethods` rebinds the method to `noop` (the `callMethod` guard), and
`_log` itself returns before any validation, timestamping or allocation.
The model is pure, so `ok []` is precisely "no publish, no write, no state
change". -/
theorem disabled_level_method_is_noop (lg : Logger) (heap : ErrHeap)
    (hasSubs : String → Bool) (now : Nat) (L : LevelName)
    (msgOrObj fields : JVal) (h : L.weight < lg.levelValue) :
    lg.callMethod heap hasSubs now L msgOrObj fields = Except.ok [] ∧
    lg.logAt heap hasSubs now L.name L.weight msgOrObj fields =
      Except.ok [] := by
  constructor
  · rw [Logger.callMethod, if_pos h]
  · rw [Logger.logAt, if_pos h]

/-- C1 witness: a warn-threshold Logger's `info` method ignores even an
invalid (non-string, non-object) input without throwing. -/
theorem disabled_level_method_is_noop_witness :
    lgWarn.callMethod [] hs0 0 .info (.num 5) .undefined = Except.ok [] ∧
    lgWarn.logAt [] hs0 0 "info" 30 (.num 5) .undefined = Except.ok [] := by
  have h := disabled_level_method_is_noop lgWarn [] hs0 0 .info (.num 5)
    .undefined (by decide)
  exact ⟨h.1, h.2⟩

/-- C10: `enabled(s)` on both `Logger` and `LogConsumer` returns `false` for
any string that is not one of the six level names: the JS lookup
`LEVELS[s]` yields `undefined` and `undefined >= n` is false, so an
unrecognized level is treated as disabled and nothing is thrown (the model
of `enabled` is total). -/
theorem enabled_unknown_level_false (lg : Logger) (c : LogConsumer)
    (s : String) (h : s ∉ LEVEL_NAMES) :
    lg.enabled s = false ∧ c.enabled s = false := by
  have hn := LEVELS_eq_none_of_not_mem s h
  constructor <;> simp [Logger.enabled, LogConsumer.enabled, hn]

/-- C10 witness: `"verbose"` is not a level name and reads as disabled. -/
theorem enabled_unknown_level_false_witness :
    lgInfo.enabled "verbose" = false ∧ consInfo.enabled "verbose" = false :=
  enabled_unknown_level_false lgInfo consInfo "verbose" (by decide)

/-- C4: when serialization reaches an Error whose `cause` refers to an Error
already on the current recursion path (the path itself included, so a cause
pointing back into its own ancestor chain), the `cause` slot receives the
`"[Circular]"` sentinel instead of recursing further; and the recursion
always terminates: any fuel beyond the number of heap ids not yet on the
path computes the same defined result, so the recursion can never loop or
overflow. -/
theorem serializeError_cycle_marker (heap : ErrHeap) (id : Nat)
    (seen : Finset Nat) (props : List PropEntry) (a : Nat)
    (hfind : heapFind heap id = some props) (hid : id ∉ seen)
    (hcause : getProp props "cause" = .err a) (ha : a ∈ insert id seen) :
    (∃ fs, serializeError heap id seen = .obj fs ∧
      jsLookup fs "cause" = .str "[Circular]") ∧
    ∀ fuel, (heapIds heap \ seen).card < fuel →
      serializeErrorF fuel heap id seen = serializeError heap id seen := by
  constructor
  · have hser : serializeError heap id seen = .obj ((enumEntries props).foldl
        (fun acc e => setIfUndefined acc e.1 e.2)
        (serializedReservedWith
          (fun cid => serializeError heap cid (insert id seen)) props)) := by
      rw [serializeError_eq]
      unfold serializeBody
      rw [if_neg hid, hfind]
    have hrec : serializeError heap a (insert id seen) = .str "[Circular]" := by
      rw [serializeError_eq]
      unfold serializeBody
      rw [if_pos ha]
    have hacc : jsLookup (serializedReservedWith
        (fun cid => serializeError heap cid (insert id seen)) props) "cause" =
        .str "[Circular]" := by
      unfold serializedReservedWith
      rw [hcause]
      simp [jsLookup_setKey, hrec]
    refine ⟨_, hser, ?_⟩
    rw [jsLookup_foldl_keep _ _ _ (by rw [hacc]; simp)]
    exact hacc
  · intro fuel hlt
    rw [serializeError]
    exact serializeErrorF_congr fuel _ heap id seen hlt (by omega)

/-- C4 witness: an Error whose `cause` is itself serializes with the cycle
sentinel in its `cause` slot, and fuel 2 already computes the fixed result. -/
theorem serializeError_cycle_marker_witness :
    (∃ fs, serializeError heapEx 0 ∅ = .obj fs ∧
      jsLookup fs "cause" = .str "[Circular]") ∧
    serializeErrorF 2 heapEx 0 ∅ = serializeError heapEx 0 ∅ := by
  have h := serializeError_cycle_marker heapEx 0 ∅ propsEx 0 rfl
    (Finset.not_mem_empty 0) rfl (Finset.mem_insert_self 0 ∅)
  exact ⟨h.1, h.2 2 (by decide)⟩

/-- C7: error serialization's `for...in` pass copies every own enumerable
property whose key is not reserved (`message`/`name`/`stack`/`code`/`cause`)
into the serialized object, and it never overwrites a reserved slot that is
already set: the guard compares against `undefined` only, so already-set
reserved values that are falsy (`0`, `""`, `false`) are preserved as well. -/
theorem serializeError_copies_props (heap : ErrHeap) (id : Nat)
    (seen : Finset Nat) (props : List PropEntry)
    (hfind : heapFind heap id = some props) (hid : id ∉ seen)
    (hnodup : (props.map PropEntry.key).Nodup) :
    ∃ fs, serializeError heap id seen = .obj fs ∧
      (∀ p : PropEntry, p ∈ props → p.enumerable = true →
        p.key ∉ ["message", "name", "stack", "code", "cause"] →
        jsLookup fs p.key = p.val) ∧
      (∀ k, jsLookup (serializedReservedWith
            (fun cid => serializeError heap cid (insert id seen)) props) k ≠
          .undefined →
        jsLookup fs k = jsLookup (serializedReservedWith
          (fun cid => serializeError heap cid (insert id seen)) props) k) := by
  have hser : serializeError heap id seen = .obj ((enumEntries props).foldl
      (fun acc e => setIfUndefined acc e.1 e.2)
      (serializedReservedWith
        (fun cid => serializeError heap cid (insert id seen)) props)) := by
    rw [serializeError_eq]
    unfold serializeBody
    rw [if_neg hid, hfind]
  refine ⟨_, hser, ?_, ?_⟩
  · intro p hp hen hres
    exact jsLookup_foldl_copy _ _ _ _
      (enumEntries_keys_nodup props hnodup)
      (mem_enumEntries props p hp hen)
      (serializedReservedWith_keys _ props p.key hres)
  · intro k hk
    exact jsLookup_foldl_keep _ _ _ hk

/-- C7 witness: on an Error with `message = ""`, `code = 0` (falsy) and an
extra enumerable `userId` property, serialization copies `userId` and keeps
the falsy reserved values untouched. -/
theorem serializeError_copies_props_witness :
    ∃ fs, serializeError heap7 0 ∅ = .obj fs ∧
      jsLookup fs "userId" = .num 7 ∧
      jsLookup fs "message" = .str "" ∧
      jsLookup fs "code" = .num 0 := by
  obtain ⟨fs, hser, hcopy, hkeep⟩ := serializeError_copies_props heap7 0 ∅
    props7 rfl (Finset.not_mem_empty 0) (by decide)
  have hm : jsLookup (serializedReservedWith
      (fun cid => serializeError heap7 cid (insert 0 ∅)) props7) "message" =
      .str "" := rfl
  have hc : jsLookup (serializedReservedWith
      (fun cid => serializeError heap7 cid (insert 0 ∅)) props7) "code" =
      .num 0 := rfl
  refine ⟨fs, hser, ?_, ?_, ?_⟩
  · exact hcopy { key := "userId", val := .num 7, enumerable := true }
      (by simp [props7]) rfl (by decide)
  · rw [hkeep "message" (by rw [hm]; simp), hm]
  · rw [hkeep "code" (by rw [hc]; simp), hc]

/-- On an options literal carrying a level-name string and an object of
bindings, the Logger constructor succeeds with exactly those fields. -/
theorem loggerOfOptions_literal (heap : ErrHeap) (s : String) (w : Nat)
    (bv : List (String × JVal)) (hs : LEVELS s = some w) :
    loggerOfOptions heap (.obj [("level", .str s), ("bindings", .obj bv)]) =
      .ok { level := s, levelValue := w, bindings := .obj bv } := by
  have hred : loggerOfOptions heap
      (.obj [("level", .str s), ("bindings", .obj bv)]) =
      (match LEVELS s with
       | none => .error .invalidArgValue
       | some w =>
         .ok { level := s, levelValue := w, bindings := .obj bv }) := rfl
  rw [hred, hs]

/-- C2: `JSONConsumer.handle` writes exactly one newline-terminated JSON
serialization of the object built in precedence order
base(level, time, msg), then staticFields, then record.bindings, then
record.fields, a later source winning every key tie; on the spec's concrete
example (staticFields a=1, bindings a=2 b=1, call fields a=3) the extra keys
come out as a=3, b=1. -/
theorem jsonConsumer_handle_precedence (c : JSONConsumer) (heap : ErrHeap)
    (r : LogRecord) (k : String) :
    c.handle heap r = jsonStr (.obj (handleLogObj heap c r)) ++ "\n" ∧
    lookupKey (handleLogObj heap c r) k =
      (match lastVal (spreadEntries heap r.fields) k with
       | some v => some v
       | none =>
         match lastVal (spreadEntries heap r.bindings) k with
         | some v => some v
         | none =>
           match lastVal (spreadEntries heap c.staticFields) k with
           | some v => some v
           | none => lastVal [("level", .str r.level),
               ("time", .num (Int.ofNat r.time)), ("msg", r.msg)] k) ∧
    lookupKey (handleLogObj [] consEx recEx) "a" = some (.num 3) ∧
    lookupKey (handleLogObj [] consEx recEx) "b" = some (.num 1) := by
  refine ⟨rfl, ?_, rfl, rfl⟩
  rw [handleLogObj, lookupKey_buildObj, lastVal_append, lastVal_append,
    lastVal_append]

/-- C3: `child(b, o)`, called with maps and with `o.level` either absent or
one of the six level names (the shape section 6 of the spec gives child
options), returns a new Logger whose bindings are the shallow merge of the
parent's bindings with `b` where `b` wins key ties, and whose threshold is
`o.level` when given, else the parent's threshold. -/
theorem child_merges_bindings_and_level (lg : Logger) (heap : ErrHeap)
    (b o : JVal) (hwf : LEVELS lg.level = some lg.levelValue)
    (hb : isValidObjectB b = true) (ho : isValidObjectB o = true)
    (hlv : jsGetProp heap o "level" = .undefined ∨
      ∃ s, jsGetProp heap o "level" = .str s ∧ s ∈ LEVEL_NAMES) :
    ∃ c, lg.child heap b o = Except.ok c ∧
      c.bindings = .obj (buildObj
        (spreadEntries heap lg.bindings ++ spreadEntries heap b)) ∧
      (∀ k, lookupKey (buildObj (spreadEntries heap lg.bindings ++
            spreadEntries heap b)) k =
        match lastVal (spreadEntries heap b) k with
        | some v => some v
        | none => lastVal (spreadEntries heap lg.bindings) k) ∧
      (jsGetProp heap o "level" = .undefined →
        c.level = lg.level ∧ c.levelValue = lg.levelValue) ∧
      (∀ s, jsGetProp heap o "level" = .str s →
        c.level = s ∧ LEVELS s = some c.levelValue) := by
  have hvb : validateObjectE b = .ok () := by
    rw [validateObjectE, if_pos hb]
  have hvo : validateObjectE o = .ok () := by
    rw [validateObjectE, if_pos ho]
  rcases hlv with hund | ⟨s, hsome, hmem⟩
  · have hchild : lg.child heap b o = loggerOfOptions heap (.obj
        [("level", .str lg.level),
         ("bindings", .obj (buildObj (spreadEntries heap lg.bindings ++
           spreadEntries heap b)))]) := by
      simp only [Logger.child, hvb, hvo, hund]
      simp [truthy]
    rw [hchild, loggerOfOptions_literal heap lg.level lg.levelValue _ hwf]
    refine ⟨_, rfl, rfl, fun k => by rw [lookupKey_buildObj, lastVal_append],
      fun _ => ⟨rfl, rfl⟩, fun s2 hs2 => ?_⟩
    rw [hund] at hs2
    simp at hs2
  · obtain ⟨htr, w, hw⟩ := level_name_props s hmem
    have hchild : lg.child heap b o = loggerOfOptions heap (.obj
        [("level", .str s),
         ("bindings", .obj (buildObj (spreadEntries heap lg.bindings ++
           spreadEntries heap b)))]) := by
      simp only [Logger.child, hvb, hvo, hsome]
      simp [htr]
    rw [hchild, loggerOfOptions_literal heap s w _ hw]
    refine ⟨_, rfl, rfl, fun k => by rw [lookupKey_buildObj, lastVal_append],
      fun hund => ?_, fun s2 hs2 => ?_⟩
    · rw [hsome] at hund
      simp at hund
    · rw [hsome] at hs2
      have hss : s = s2 := by
        cases hs2
        rfl
      subst hss
      exact ⟨rfl, hw⟩

/-- C3 witness: a child of an info-level Logger with bindings svc=api, given
req=1 and a debug level override, merges the bindings with the child's keys
present and adopts the debug threshold. -/
theorem child_merges_bindings_and_level_witness :
    ∃ c, lgSvc.child [] bEx oEx = Except.ok c ∧
      c.level = "debug" ∧ c.levelValue = 20 ∧
      c.bindings = .obj [("svc", .str "api"), ("req", .str "1")] := by
  obtain ⟨c, hc, hbind, _, _, hgiven⟩ :=
    child_merges_bindings_and_level lgSvc [] bEx oEx rfl rfl rfl
      (Or.inr ⟨"debug", rfl, by decide⟩)
  obtain ⟨hlevel, hLEVELS⟩ := hgiven "debug" rfl
  refine ⟨c, hc, hlevel, ?_, ?_⟩
  · rw [show LEVELS "debug" = some 20 from by decide] at hLEVELS
    exact (Option.some.inj hLEVELS).symm
  · rw [hbind]
    rfl

/-- C5 counterexample: with an Error-like first argument on an enabled
level, a non-map `fields` argument does not raise: the Error branch of
`_log` skips fields validation entirely and the call publishes a record.
The claim says such a call raises `InvalidArgumentError`. -/
theorem error_input_skips_fields_validation :
    lgInfo.callMethod heapEx hs0 0 .error (.err 0) (.num 42) =
      Except.ok [{ level := "error", msg := .str "boom", time := 0,
                   bindings := .obj [],
                   fields := .obj [("err", .obj [("message", .str "boom"),
                     ("name", .undefined), ("stack", .undefined),
                     ("cause", .str "[Circular]")])] }] := by
  rfl

/-- C5 (amended): on an enabled level, a string message whose `fields`
argument is present but not a map raises `InvalidArgumentError`, and a
structured non-Error map without a string `msg` raises
`InvalidArgumentError`; but when the first argument is Error-like, `fields`
is never validated — the call succeeds for every `fields` value. -/
theorem log_validation_amended (lg : Logger) (heap : ErrHeap)
    (hasSubs : String → Bool) (now : Nat) (L : LevelName)
    (henabled : lg.levelValue ≤ L.weight) :
    (∀ s f, f ≠ .undefined → isValidObjectB f = false →
      lg.callMethod heap hasSubs now L (.str s) f =
        Except.error .invalidArgType) ∧
    (∀ m f, isStringV m = false → isErrorV m = false →
      isValidObjectB m = true → isStringV (jsGetProp heap m "msg") = false →
      lg.callMethod heap hasSubs now L m f =
        Except.error .invalidArgType) ∧
    (∀ id f, ∃ rs, lg.callMethod heap hasSubs now L (.err id) f =
      Except.ok rs) := by
  have hnot : ¬ L.weight < lg.levelValue := by omega
  refine ⟨?_, ?_, ?_⟩
  · intro s f hne hbad
    rw [Logger.callMethod, if_neg hnot, Logger.logAt, if_neg hnot]
    have hu : isUndefV f = false := by
      cases f <;> simp_all [isUndefV]
    have hval : logValidate heap (.str s) f = .error .invalidArgType := by
      rw [logValidate, if_pos (by simp [isStringV]), if_neg (by simp [hu]),
        validateObjectE, if_neg (by simp [hbad])]
    rw [hval]
  · intro m f hs he hv hmsg
    rw [Logger.callMethod, if_neg hnot, Logger.logAt, if_neg hnot]
    have hval : logValidate heap m f = .error .invalidArgType := by
      rw [logValidate, if_neg (by simp [hs]), if_neg (by simp [he]),
        validateObjectE, if_pos hv, validateStringE, if_neg (by simp [hmsg])]
    rw [hval]
  · intro id f
    rw [Logger.callMethod, if_neg hnot, Logger.logAt, if_neg hnot]
    have hval : logValidate heap (.err id) f = .ok () := rfl
    rw [hval]
    cases hsub : hasSubs L.name
    · exact ⟨[], rfl⟩
    · exact ⟨[logRecordOf lg heap now L.name (.err id) f], rfl⟩

/-- C5 witness: on an info Logger, a string message with numeric fields
raises; a structured map without `msg` raises; and an Error input with
numeric fields succeeds. -/
theorem log_validation_amended_witness :
    lgInfo.callMethod [] hs0 0 .info (.str "x") (.num 1) =
      Except.error .invalidArgType ∧
    lgInfo.callMethod [] hs0 0 .info (.obj [("userId", .num 3)]) .undefined =
      Except.error .invalidArgType ∧
    ∃ rs, lgInfo.callMethod [] hs0 0 .info (.err 0) (.num 1) =
      Except.ok rs := by
  have h := log_validation_amended lgInfo [] hs0 0 .info (by decide)
  exact ⟨h.1 "x" (.num 1) (by simp) rfl,
         h.2.1 (.obj [("userId", .num 3)]) .undefined rfl rfl rfl rfl,
         h.2.2 0 (.num 1)⟩

/-- The rest-fields object of the structured branch of `_log` never carries
the key `msg`: the destructuring removed it and the only possible later
assignment targets the key `err`. -/
theorem msg_not_mem_rest2 (heap : ErrHeap) (es : List (String × JVal)) :
    "msg" ∉ ((match jsLookup (es.filter (fun e => !(e.1 == "msg"))) "err" with
      | .err eid => setKey (es.filter (fun e => !(e.1 == "msg"))) "err"
          (serializeError heap eid ∅)
      | _ => es.filter (fun e => !(e.1 == "msg"))) :
        List (String × JVal)).map Prod.fst := by
  have hbase := msg_not_mem_filter_keys es
  cases jsLookup (es.filter (fun e => !(e.1 == "msg"))) "err" <;>
    first
      | exact hbase
      | exact not_mem_keys_setKey _ _ _ _ hbase (by decide)

/-- C6 counterexample: a string message with a caller-supplied fields map
containing the key `msg` publishes a record whose fields still contain
`msg`: extraction happens only for structured-map inputs, so the claimed
invariant fails for the string input shape. -/
theorem string_input_keeps_msg_in_fields :
    (recordsOf (lgInfo.callMethod [] hs0 0 .info (.str "hi")
        (.obj [("msg", .str "sneaky")]))).map
      (fun r => (spreadEntries [] r.fields).map Prod.fst) = [["msg"]] := by
  rfl

/-- C6 (amended): for structured-map input (neither a string nor an
Error-like value), every published record's fields have the `msg` key
destructured away; for the string and Error input shapes the
caller-supplied fields object is attached as is and may itself carry
`msg`. -/
theorem structured_input_extracts_msg (lg : Logger) (heap : ErrHeap)
    (hasSubs : String → Bool) (now : Nat) (L : LevelName) (m f : JVal)
    (hs : isStringV m = false) (he : isErrorV m = false)
    (hv : isValidObjectB m = true) :
    ∀ r ∈ recordsOf (lg.callMethod heap hasSubs now L m f),
      "msg" ∉ (spreadEntries heap r.fields).map Prod.fst := by
  intro r hr
  rw [Logger.callMethod] at hr
  by_cases hth : L.weight < lg.levelValue
  · rw [if_pos hth] at hr
    simp [recordsOf] at hr
  · rw [if_neg hth, Logger.logAt, if_neg hth] at hr
    cases hval : logValidate heap m f with
    | error e =>
      rw [hval] at hr
      simp [recordsOf] at hr
    | ok u =>
      cases u
      rw [hval] at hr
      cases hsub : hasSubs L.name
      · rw [hsub] at hr
        simp [recordsOf] at hr
      · rw [hsub] at hr
        simp only [Bool.not_true, Bool.false_eq_true, if_false,
          recordsOf, List.mem_singleton] at hr
        subst hr
        cases m with
        | str s => simp [isStringV] at hs
        | err i => simp [isErrorV] at he
        | obj fs => exact msg_not_mem_rest2 heap fs
        | custom fs => exact msg_not_mem_rest2 heap fs
        | undefined => simp [isValidObjectB] at hv
        | null => simp [isValidObjectB] at hv
        | num n => simp [isValidObjectB] at hv
        | bool b => simp [isValidObjectB] at hv
        | arr es => simp [isValidObjectB] at hv
        | func => simp [isValidObjectB] at hv

/-- C6 witness: the structured call info(\x7bmsg: "t", userId: 1\x7d)
publishes a record whose fields do not contain `msg`. -/
theorem structured_input_extracts_msg_witness :
    "msg" ∉ (spreadEntries [] (logRecordOf lgInfo [] 0 "info"
      (.obj [("msg", .str "t"), ("userId", .num 1)]) .undefined).fields).map
      Prod.fst := by
  refine structured_input_extracts_msg lgInfo [] hs0 0 .info
    (.obj [("msg", .str "t"), ("userId", .num 1)]) .undefined rfl rfl rfl _ ?_
  show _ ∈ recordsOf (Except.ok [logRecordOf lgInfo [] 0 "info"
    (.obj [("msg", .str "t"), ("userId", .num 1)]) .undefined])
  exact List.mem_singleton_self _

set_option maxRecDepth 100000

/-- C8: an immediate flush happens upon enqueue exactly when the cumulative
queued size reaches the 16 KiB high-water mark or the queued-entry count
reaches 100; a flush of a nonempty queue drains it entirely, resets the
cumulative size to zero and writes every queued line; and enqueuing 101
one-byte entries from the idle state performs exactly one immediate flush,
which occurs at the 100th enqueue (none after 99, one after 100 with the
queue drained). -/
theorem console_scheduler_flush (s : ConsoleBuf) (m : String) :
    ((consoleLog s m).flushCount = s.flushCount + 1 ↔
      (kBufferFlushThreshold ≤ s.bufferSize + m.length ∨
        100 ≤ s.logBuffer.length + 1)) ∧
    (s.logBuffer ≠ [] →
      (flushBuffer s).logBuffer = [] ∧ (flushBuffer s).bufferSize = 0 ∧
      (flushBuffer s).written =
        s.written ++ s.logBuffer.map (fun x => x ++ "\n")) ∧
    ((List.range 101).foldl (fun t _ => consoleLog t "x")
      initialConsoleBuf).flushCount = 1 ∧
    ((List.range 99).foldl (fun t _ => consoleLog t "x")
      initialConsoleBuf).flushCount = 0 ∧
    ((List.range 100).foldl (fun t _ => consoleLog t "x")
      initialConsoleBuf).flushCount = 1 ∧
    ((List.range 100).foldl (fun t _ => consoleLog t "x")
      initialConsoleBuf).logBuffer = [] := by
  refine ⟨?_, ?_, rfl, rfl, rfl, rfl⟩
  · simp only [consoleLog]
    split
    · rename_i hcond
      rw [flushBuffer, if_neg (by simp)]
      simp only [List.length_append, List.length_cons, List.length_nil] at hcond
      constructor
      · intro _
        simpa using hcond
      · intro _
        simp
    · rename_i hcond
      rw [scheduleFlush]
      simp only [List.length_append, List.length_cons, List.length_nil] at hcond
      constructor
      · intro heq
        split at heq <;> simp at heq
      · intro hor
        exact absurd (by simpa using hor) hcond
  · intro hne
    rw [flushBuffer, if_neg hne]
    exact ⟨rfl, rfl, rfl⟩

/-- C8 witness: a one-entry one-byte buffer does not flush on the next
enqueue (no threshold reached), and flushing a nonempty state drains it. -/
theorem console_scheduler_flush_witness :
    ((consoleLog cbufEx "b").flushCount = cbufEx.flushCount + 1 ↔
      (kBufferFlushThreshold ≤ cbufEx.bufferSize + "b".length ∨
        100 ≤ cbufEx.logBuffer.length + 1)) ∧
    (flushBuffer cbufEx).logBuffer = [] := by
  have h := console_scheduler_flush cbufEx "b"
  exact ⟨h.1, (h.2.1 (by simp [cbufEx])).1⟩

/-- C9 counterexample: an `Object`-constructed container holding a custom
object is not structurally plain, yet `fastStringify` serializes it through
the `JSON.stringify` fast path: only the top-level constructor is
inspected, so a plain-tagged container transitively containing a custom
object never reaches the inspector, contrary to the claim. -/
theorem fastStringify_top_level_only :
    structurallyPlain vC9 = false ∧
    fastStringify inspectMark vC9 = "\x7b\"a\":\x7b\x7d\x7d" ∧
    fastStringify inspectMark vC9 ≠ inspectMark vC9 := by
  exact ⟨rfl, rfl, by decide⟩

/-- C9 (amended): primitives convert directly; a value whose constructor is
`Object` or `Array` is serialized by `JSON.stringify` regardless of what it
contains; top-level custom objects, Errors and functions defer to the
inspector; and a structurally plain value never reaches the inspector (its
result does not depend on the inspector at all). -/
theorem fastStringify_amended (i1 i2 : JVal → String) (v : JVal) :
    (structurallyPlain v = true → fastStringify i1 v = fastStringify i2 v) ∧
    (∀ s, fastStringify i1 (.str s) = s) ∧
    (∀ n, fastStringify i1 (.num n) = toString n) ∧
    fastStringify i1 .null = "null" ∧
    fastStringify i1 .undefined = "undefined" ∧
    (∀ fs, fastStringify i1 (.obj fs) = jsonStr (.obj fs)) ∧
    (∀ es, fastStringify i1 (.arr es) = jsonStr (.arr es)) ∧
    (∀ fs, fastStringify i1 (.custom fs) = i1 (.custom fs)) ∧
    fastStringify i1 .func = i1 .func ∧
    (∀ id, fastStringify i1 (.err id) = i1 (.err id)) := by
  refine ⟨?_, fun _ => rfl, fun _ => rfl, rfl, rfl, fun _ => rfl,
    fun _ => rfl, fun _ => rfl, rfl, fun _ => rfl⟩
  intro h
  cases v <;> first | rfl | simp [structurallyPlain] at h

/-- C9 witness: on a structurally plain container the result is the same
under two different inspectors. -/
theorem fastStringify_amended_witness :
    fastStringify inspectMark vPlain = fastStringify inspectOther vPlain :=
  (fastStringify_amended inspectMark inspectOther vPlain).1 rfl
